import Mathlib

/-!
# Text animator page (`src/app/page.jsx`)

A shallow embedding of the timing model, the typewriter click schedule, the
container negotiation and the anchor computation of the page component.

Modelling conventions:

* JavaScript numbers are rationals (`ℚ`). The timing model (visibility, visible
  text, opacity, vertical offset) is stated over exact rationals. In the anchor
  computation and the typewriter cue every decimal literal and every
  arithmetic operation is rounded to the nearest IEEE 754 double by `toDouble`.
* A JavaScript string used only through `length` and `slice` (`text`) is a
  `List Char`, one element per code unit; identifiers compared with `===`
  (`inAnim`, `outAnim`, `position`, mime types) are `String`.
* The React state of `Page` is one record; the functions declared inside the
  component read it as their closure.
-/

namespace TextAnimator

/-! ## Data model -/

/-- State of the `Page` component: the `useState` cells that the timing
functions close over (lines 35-43 and 66). -/
structure Page where
  text : List Char
  fontSize : ℤ
  color : String
  position : String
  inAnim : String
  outAnim : String
  startTime : ℚ
  endTime : ℚ
  sfx : String
  currentTime : ℚ

/-- Initial values of the `useState` cells. -/
def initialPage : Page where
  text := "Your Awesome Title".toList
  fontSize := 48
  color := "#ffffff"
  position := "middle"
  inAnim := "fade"
  outAnim := "none"
  startTime := 0.5
  endTime := 3
  sfx := "whoosh"
  currentTime := 0

/-- Value of the "Text start" range input (`min=0 max=10 step=0.1`) at its
`k`-th stop. -/
def startSliderValue (k : Fin 101) : ℚ := (k.val : ℚ) / 10

/-- Value of the "Text end" range input (`min=0.5 max=10 step=0.1`) at its
`k`-th stop. -/
def endSliderValue (k : Fin 96) : ℚ := 0.5 + (k.val : ℚ) / 10

/-- State updates the page accepts: the `onChange` handlers of the controls
and the preview clock (`setCurrentTime(v.currentTime || 0)`). -/
inductive Event where
  | setText (v : List Char)
  | setFontSize (v : ℤ)
  | setColor (v : String)
  | setPosition (v : String)
  | setInAnim (v : String)
  | setOutAnim (v : String)
  | setStartTime (k : Fin 101)
  | setEndTime (k : Fin 96)
  | setSfx (v : String)
  | tick (videoTime : ℚ)

/-- Effect of one accepted update on the page state. -/
def update (s : Page) : Event → Page
  | .setText v => { s with text := v }
  | .setFontSize v => { s with fontSize := v }
  | .setColor v => { s with color := v }
  | .setPosition v => { s with position := v }
  | .setInAnim v => { s with inAnim := v }
  | .setOutAnim v => { s with outAnim := v }
  | .setStartTime k => { s with startTime := startSliderValue k }
  | .setEndTime k => { s with endTime := endSliderValue k }
  | .setSfx v => { s with sfx := v }
  | .tick videoTime => { s with currentTime := videoTime }

/-- Page state after a sequence of accepted updates, from the initial state. -/
def run (es : List Event) : Page := es.foldl update initialPage

/-! ## Animation model -/

/-- JavaScript `Math.round`: the nearest integer, halves rounded up. -/
def jsRound (x : ℚ) : ℤ := ⌊x + 1 / 2⌋

/-- Line 79: `isVisible = currentTime >= startTime && currentTime <= endTime`.
It is computed from the state cell `currentTime`. -/
def isVisible (s : Page) : Bool :=
  decide (s.currentTime ≥ s.startTime) && decide (s.currentTime ≤ s.endTime)

/-- Lines 81-87. -/
def visibleTextAtTime (s : Page) (t : ℚ) : List Char :=
  if s.inAnim ≠ "typewriter" then s.text
  else if t < s.startTime then []
  else
    let p : ℚ := min 1 ((t - s.startTime) / max 0.01 (s.endTime - s.startTime))
    let chars : ℤ := max 1 ⌊(s.text.length : ℚ) * p⌋
    s.text.take chars.toNat

/-- Lines 89-97. The guard reads `isVisible`, not the argument `t`. -/
def opacityAtTime (s : Page) (t : ℚ) : ℚ :=
  if !isVisible s then 0
  else
    let inDur : ℚ := 0.5
    let outDur : ℚ := 0.5
    let a : ℚ := 1
    let a := if s.inAnim = "fade" then min 1 (max 0 ((t - s.startTime) / inDur)) else a
    let a := if s.outAnim = "fade" then min a (min 1 (max 0 ((s.endTime - t) / outDur))) else a
    a

/-- Lines 99-106. -/
def yOffsetAtTime (s : Page) (t : ℚ) : ℤ :=
  let inDur : ℚ := 0.5
  let outDur : ℚ := 0.5
  let y : ℤ := 0
  let y := if s.inAnim = "slide" then jsRound (24 * max 0 (1 - (t - s.startTime) / inDur)) else y
  let y := if s.outAnim = "slide" then jsRound (24 * max 0 (1 - (s.endTime - t) / outDur)) else y
  y

/-- Line 320: the preview renders `opacityAtTime(currentTime)`, the query time
being the preview clock itself. -/
def previewOpacity (s : Page) : ℚ := opacityAtTime s s.currentTime

/-! ## Double arithmetic -/

/-- Nearest integer to `y`, a tie going to the even one. -/
def roundHalfEven (y : ℚ) : ℤ :=
  let f : ℤ := ⌊y⌋
  if y - f < 1 / 2 then f
  else if 1 / 2 < y - f then f + 1
  else if f % 2 = 0 then f else f + 1

/-- Exponent of the spacing of the doubles around `x`: a double has a 53-bit
significand, so for `2^k <= |x| < 2^(k+1)` the spacing is `2^(k-52)`; below
`2^(-1022)` (subnormal range) the spacing is `2^(-1074)`. -/
def ulpExp (x : ℚ) : ℤ := max (Int.log 2 |x| - 52) (-1074)

/-- The IEEE 754 binary64 value nearest to `x`, ties to the even significand:
the value of the decimal literal `x` and the result of a JavaScript arithmetic
operation whose exact result is `x`. Overflow to `Infinity` (magnitudes from
`2^1024` on) is outside the model. -/
def toDouble (x : ℚ) : ℚ := (roundHalfEven (x / 2 ^ ulpExp x) : ℚ) * 2 ^ ulpExp x

/-! ## Export helpers -/

/-- Lines 152-156. -/
def mimeCandidates : List String :=
  ["video/webm;codecs=vp9,opus", "video/webm;codecs=vp8,opus", "video/webm"]

/-- JavaScript `x || d` on the result of `Array.prototype.find` over strings:
`undefined` and the empty string are falsy. -/
def orDefault (x : Option String) (d : String) : String :=
  match x with
  | some m => if m = "" then d else m
  | none => d

/-- Line 157: `mimeCandidates.find((m) => MediaRecorder.isTypeSupported(m)) || "video/webm"`,
with the recording facility's predicate as a parameter. -/
def exportVideoMime (isTypeSupported : String → Bool) : String :=
  orDefault (mimeCandidates.find? isTypeSupported) "video/webm"

/-- Lines 352-356, in double arithmetic. -/
def anchorPosition (w h : ℚ) (pos : String) : ℚ × ℚ :=
  if pos = "top" then (toDouble (w / 2), toDouble (h * toDouble 0.12))
  else if pos = "bottom" then (toDouble (w / 2), toDouble (h * toDouble 0.88))
  else (toDouble (w / 2), toDouble (h / 2))

/-! ## Typewriter cue -/

/-- Lines 286, 292 and 140: the duration `endTime - startTime` that
`exportVideo` passes to the cue, with the two cells holding `parseFloat` of the
slider stops. -/
def exportCueDuration (kStart : Fin 101) (kEnd : Fin 96) : ℚ :=
  toDouble (toDouble (endSliderValue kEnd) - toDouble (startSliderValue kStart))

/-- One scheduled click of `makeTypewriter`: the oscillator starts at `start`,
its gain peaks at `start + 0.005` and it stops at `start + 0.05`. The random
pitch is not part of the schedule. -/
structure Click where
  start : ℚ
  peakAt : ℚ
  stop : ℚ
deriving DecidableEq

/-- Line 436: `Math.max(1, Math.min(text.length, Math.floor(dur * 20)))`, the
product being the double product. -/
def clickCount (dur : ℚ) (text : List Char) : ℤ :=
  max 1 (min (text.length : ℤ) ⌊toDouble (dur * 20)⌋)

/-- Lines 433-452: the clicks scheduled by the loop `for (i = 0; i < count; i++)`,
in order, each time computed in double arithmetic. -/
def makeTypewriter (startAt dur : ℚ) (text : List Char) : List Click :=
  let count := clickCount dur text
  (List.range count.toNat).map fun (i : ℕ) =>
    let t : ℚ := toDouble (startAt + toDouble (toDouble ((i : ℚ) / (count : ℚ)) * dur))
    { start := t, peakAt := toDouble (t + toDouble 0.005), stop := toDouble (t + toDouble 0.05) }

/-! ## Statements of the specification, for comparison -/

/-- The specification's `clamp(x, lo, hi)`, nested as the source nests it for
the fades: `Math.min(hi, Math.max(lo, x))`. -/
def clamp {α : Type} [LinearOrder α] (x lo hi : α) : α := min hi (max lo x)

/-- The opacity as the specification words it: `0` when `t` is outside
`[startTime, endTime]`, otherwise `1`, replaced by the in-fade ramp when
`inAnim` is fade and lowered to the minimum with the out-fade ramp when
`outAnim` is fade. It reads the configuration and `t` only. -/
def opacityClaimed (s : Page) (t : ℚ) : ℚ :=
  if t < s.startTime ∨ s.endTime < t then 0
  else
    let a : ℚ := 1
    let a := if s.inAnim = "fade" then clamp ((t - s.startTime) / 0.5) 0 1 else a
    let a := if s.outAnim = "fade" then min a (clamp ((s.endTime - t) / 0.5) 0 1) else a
    a

/-! ## Example pages -/

/-- The example configuration of the specification (text "Hi", start 1, end 2,
fade in, no out animation) on a page whose preview clock stands at `c`. -/
def hiExample (c : ℚ) : Page :=
  { initialPage with
    text := ['H', 'i'], startTime := 1, endTime := 2,
    inAnim := "fade", outAnim := "none", currentTime := c }

/-- A typewriter page whose window is the single instant 1 (both sliders at
1.0), with text "Hi". -/
def instantTypewriter : Page :=
  { initialPage with
    text := ['H', 'i'], inAnim := "typewriter", startTime := 1, endTime := 1 }

/-- A typewriter page with text "Hi" over the window [1, 2]. -/
def typewriterHi : Page := { instantTypewriter with endTime := 2 }

/-- A page with fade in and fade out over the window [0, 0.5] (start slider at
0.0, end slider at 0.5), preview clock at `c`. -/
def fadeBoth (c : ℚ) : Page :=
  { initialPage with
    startTime := 0, endTime := 0.5, inAnim := "fade", outAnim := "fade", currentTime := c }

/-- A page with fade out only over the window [1, 2], preview clock at `c`. -/
def fadeOutExample (c : ℚ) : Page :=
  { initialPage with
    startTime := 1, endTime := 2, inAnim := "none", outAnim := "fade", currentTime := c }

/-- A page with fade in only over the window [0.3, 0.5] (start slider at 0.3,
end slider at 0.5), preview clock at `c`. -/
def fadeInShort (c : ℚ) : Page :=
  { initialPage with
    startTime := 0.3, endTime := 0.5, inAnim := "fade", outAnim := "none", currentTime := c }

/-- A page with fade out only over the window [0.3, 0.5] (start slider at 0.3,
end slider at 0.5), preview clock at `c`. -/
def fadeOutShort (c : ℚ) : Page :=
  { initialPage with
    startTime := 0.3, endTime := 0.5, inAnim := "none", outAnim := "fade", currentTime := c }

/-! ## Theorems -/

/-- The example pages are states the controls of the page produce: the text
field, the animation selects, the two sliders at their stops and the preview
clock. -/
theorem example_pages_reachable (c : ℚ) :
    hiExample c =
      run [Event.setText ['H', 'i'], Event.setStartTime ⟨10, by decide⟩,
        Event.setEndTime ⟨15, by decide⟩, Event.tick c] ∧
    instantTypewriter =
      run [Event.setText ['H', 'i'], Event.setInAnim "typewriter",
        Event.setStartTime ⟨10, by decide⟩, Event.setEndTime ⟨5, by decide⟩] ∧
    fadeBoth c =
      run [Event.setOutAnim "fade", Event.setStartTime ⟨0, by decide⟩,
        Event.setEndTime ⟨0, by decide⟩, Event.tick c] := by
  refine ⟨?_, ?_, ?_⟩ <;>
    norm_num [hiExample, instantTypewriter, fadeBoth, run, update, initialPage,
      startSliderValue, endSliderValue]

/-- On the preview path, where the query time is the state cell `currentTime`
itself (line 320), the source computes the opacity the specification words. -/
theorem opacityAtTime_eq_claimed_of_currentTime (s : Page) (t : ℚ)
    (h : s.currentTime = t) : opacityAtTime s t = opacityClaimed s t := by
  unfold opacityAtTime opacityClaimed isVisible clamp
  rw [h]
  by_cases h1 : s.startTime ≤ t <;> by_cases h2 : t ≤ s.endTime <;>
    simp [h1, h2, not_le.mp, not_lt.mpr]

/-- C1: with the preview clock at 0 (outside the window `[1, 2]`) the source
returns opacity 0 at the query times 1.25 and 1.5, where the claim gives 0.5
and 1; with the preview clock at 1.5 (inside the window) the query at 1.5
returns 1 and the query at 2.5 returns 1, where the claim gives 0. The result
therefore depends on the state cell `currentTime`, not on the configuration
and `t` alone. -/
theorem opacityAtTime_reads_currentTime :
    opacityAtTime (hiExample 0) 1.5 = 0 ∧ opacityClaimed (hiExample 0) 1.5 = 1 ∧
    opacityAtTime (hiExample 0) 1.25 = 0 ∧ opacityClaimed (hiExample 0) 1.25 = 0.5 ∧
    opacityAtTime (hiExample 1.5) 1.5 = 1 ∧
    opacityAtTime (hiExample 1.5) 2.5 = 1 ∧ opacityClaimed (hiExample 1.5) 2.5 = 0 := by
  have hne : ¬ "none" = "fade" := by decide
  refine ⟨?_, ?_, ?_, ?_, ?_, ?_, ?_⟩ <;>
    norm_num [opacityAtTime, opacityClaimed, clamp, isVisible, hiExample, initialPage, hne]

/-- C7: the vertical offset is the out-slide value whenever `outAnim` is
slide, whatever `inAnim` is; otherwise the in-slide value when `inAnim` is
slide; otherwise 0. -/
theorem yOffsetAtTime_cases (s : Page) (t : ℚ) :
    yOffsetAtTime s t =
      if s.outAnim = "slide" then jsRound (24 * max 0 (1 - (s.endTime - t) / 0.5))
      else if s.inAnim = "slide" then jsRound (24 * max 0 (1 - (t - s.startTime) / 0.5))
      else 0 := by
  unfold yOffsetAtTime
  split_ifs <;> rfl

/-- C9: the negotiated container is the first candidate the support predicate
accepts, the generic entry when it accepts none, and always a member of the
candidate list. -/
theorem exportVideoMime_first_supported (isTypeSupported : String → Bool) :
    exportVideoMime isTypeSupported =
      (if isTypeSupported "video/webm;codecs=vp9,opus" = true then "video/webm;codecs=vp9,opus"
       else if isTypeSupported "video/webm;codecs=vp8,opus" = true then "video/webm;codecs=vp8,opus"
       else "video/webm")
    ∧ exportVideoMime isTypeSupported ∈ mimeCandidates := by
  unfold exportVideoMime mimeCandidates orDefault
  by_cases h1 : isTypeSupported "video/webm;codecs=vp9,opus" = true <;>
  by_cases h2 : isTypeSupported "video/webm;codecs=vp8,opus" = true <;>
  by_cases h3 : isTypeSupported "video/webm" = true <;>
    simp [List.find?, h1, h2, h3]

/-- The slider stops lie in the ranges of their inputs. -/
theorem startSliderValue_range (k : Fin 101) :
    0 ≤ startSliderValue k ∧ startSliderValue k ≤ 10 := by
  have hk : (k.val : ℚ) ≤ 100 := by exact_mod_cast Nat.le_of_lt_succ k.isLt
  have h0 : (0 : ℚ) ≤ (k.val : ℚ) := Nat.cast_nonneg _
  unfold startSliderValue
  constructor
  · positivity
  · linarith

/-- The slider stops lie in the ranges of their inputs. -/
theorem endSliderValue_range (k : Fin 96) :
    1 / 2 ≤ endSliderValue k ∧ endSliderValue k ≤ 10 := by
  have hk : (k.val : ℚ) ≤ 95 := by exact_mod_cast Nat.le_of_lt_succ k.isLt
  have h0 : (0 : ℚ) ≤ (k.val : ℚ) := Nat.cast_nonneg _
  unfold endSliderValue
  constructor <;> norm_num <;> linarith

/-- The ranges of the two sliders hold after any one accepted update. -/
theorem update_range (s : Page) (e : Event)
    (h : 0 ≤ s.startTime ∧ s.startTime ≤ 10 ∧ 1 / 2 ≤ s.endTime ∧ s.endTime ≤ 10) :
    0 ≤ (update s e).startTime ∧ (update s e).startTime ≤ 10 ∧
      1 / 2 ≤ (update s e).endTime ∧ (update s e).endTime ≤ 10 := by
  cases e <;> simp only [update] <;> try exact h
  · exact ⟨(startSliderValue_range _).1, (startSliderValue_range _).2, h.2.2.1, h.2.2.2⟩
  · exact ⟨h.1, h.2.1, (endSliderValue_range _).1, (endSliderValue_range _).2⟩

/-- The ranges of the two sliders hold after any sequence of accepted updates
from any state in which they hold. -/
theorem foldl_update_range (es : List Event) (s : Page)
    (h : 0 ≤ s.startTime ∧ s.startTime ≤ 10 ∧ 1 / 2 ≤ s.endTime ∧ s.endTime ≤ 10) :
    0 ≤ (es.foldl update s).startTime ∧ (es.foldl update s).startTime ≤ 10 ∧
      1 / 2 ≤ (es.foldl update s).endTime ∧ (es.foldl update s).endTime ≤ 10 := by
  induction es generalizing s with
  | nil => exact h
  | cons e es ih => exact ih (update s e) (update_range s e h)

/-- C6, as stated, fails: moving the "Text start" slider to 5.0 in the initial
state is an accepted update and yields startTime 5 > endTime 3. -/
theorem startTime_le_endTime_not_invariant :
    (run [Event.setStartTime ⟨50, by decide⟩]).startTime = 5 ∧
    (run [Event.setStartTime ⟨50, by decide⟩]).endTime = 3 ∧
    ¬ (run [Event.setStartTime ⟨50, by decide⟩]).startTime ≤ (run [Event.setStartTime ⟨50, by decide⟩]).endTime := by
  norm_num [run, update, startSliderValue, initialPage]

/-- C6, amended: `startTime <= endTime` holds in the initial state; a
start-time update keeps it exactly when the new start is at most the current
end, an end-time update exactly when the new end is at least the current
start; and every reachable state has `0 <= startTime <= 10` and
`0.5 <= endTime <= 10`. -/
theorem reachable_time_ranges :
    initialPage.startTime ≤ initialPage.endTime ∧
    (∀ (s : Page) (k : Fin 101),
      (update s (Event.setStartTime k)).startTime ≤ (update s (Event.setStartTime k)).endTime
        ↔ startSliderValue k ≤ s.endTime) ∧
    (∀ (s : Page) (k : Fin 96),
      (update s (Event.setEndTime k)).startTime ≤ (update s (Event.setEndTime k)).endTime
        ↔ s.startTime ≤ endSliderValue k) ∧
    (∀ es : List Event,
      0 ≤ (run es).startTime ∧ (run es).startTime ≤ 10 ∧
        1 / 2 ≤ (run es).endTime ∧ (run es).endTime ≤ 10) := by
  refine ⟨by norm_num [initialPage], fun s k => Iff.rfl, fun s k => Iff.rfl, fun es => ?_⟩
  exact foldl_update_range es initialPage (by norm_num [initialPage])

/-- The divisor of the typewriter progress is positive. -/
theorem typewriter_divisor_pos (s : Page) : 0 < max (0.01 : ℚ) (s.endTime - s.startTime) :=
  lt_of_lt_of_le (by norm_num) (le_max_left _ _)

/-- C2, as stated, fails: with startTime = endTime = 1 and text "Hi" the
typewriter shows only "H" at t = 1 >= endTime. -/
theorem visibleTextAtTime_not_full_at_endTime :
    instantTypewriter.inAnim = "typewriter" ∧
    instantTypewriter.startTime ≤ instantTypewriter.endTime ∧
    instantTypewriter.endTime ≤ 1 ∧
    visibleTextAtTime instantTypewriter 1 = ['H'] ∧
    visibleTextAtTime instantTypewriter 1 ≠ instantTypewriter.text := by
  norm_num [visibleTextAtTime, instantTypewriter, initialPage]

/-- C2, amended: under typewriter the full text is shown at every
`t >= max(endTime, startTime + 0.01)`, which is `t >= endTime` whenever the
window is at least 0.01 long. -/
theorem visibleTextAtTime_full (s : Page) (t : ℚ) (hin : s.inAnim = "typewriter")
    (ht : max s.endTime (s.startTime + 0.01) ≤ t) :
    visibleTextAtTime s t = s.text := by
  have hd := typewriter_divisor_pos s
  have h1 : s.endTime ≤ t := le_trans (le_max_left _ _) ht
  have h2 : s.startTime + 0.01 ≤ t := le_trans (le_max_right _ _) ht
  have hstart : ¬ t < s.startTime := by
    have : (0 : ℚ) < 0.01 := by norm_num
    intro hlt
    linarith
  have hdiv : 1 ≤ (t - s.startTime) / max 0.01 (s.endTime - s.startTime) := by
    rw [le_div_iff₀ hd, one_mul]
    exact max_le (by linarith) (by linarith)
  unfold visibleTextAtTime
  simp only [hin, ne_eq, not_true_eq_false, if_false, hstart, min_eq_left hdiv, mul_one,
    Int.floor_natCast]
  apply List.take_of_length_le
  have : (s.text.length : ℤ) ≤ max 1 (s.text.length : ℤ) := le_max_right _ _
  omega

/-- C2, amended, at a concrete input: start 1, end 2, text "Hi", t = 2. -/
theorem visibleTextAtTime_full_witness :
    typewriterHi.inAnim = "typewriter" ∧
    max typewriterHi.endTime (typewriterHi.startTime + 0.01) ≤ 2 ∧
    visibleTextAtTime typewriterHi 2 = typewriterHi.text :=
  ⟨rfl, by norm_num [typewriterHi, instantTypewriter],
    visibleTextAtTime_full typewriterHi 2 rfl (by norm_num [typewriterHi, instantTypewriter])⟩

/-- C3: under typewriter the length of the visible text is non-decreasing in
the query time, for every page state and all `t1 <= t2`, times before
`startTime` included. -/
theorem visibleTextAtTime_length_mono (s : Page) (t1 t2 : ℚ)
    (hin : s.inAnim = "typewriter") (h : t1 ≤ t2) :
    (visibleTextAtTime s t1).length ≤ (visibleTextAtTime s t2).length := by
  have hd := typewriter_divisor_pos s
  unfold visibleTextAtTime
  simp only [hin, ne_eq, not_true_eq_false, if_false]
  by_cases h1 : t1 < s.startTime
  · simp [h1]
  · have h2 : ¬ t2 < s.startTime := fun hlt => h1 (lt_of_le_of_lt h hlt)
    simp only [h1, h2, if_false, List.length_take]
    have hp : min 1 ((t1 - s.startTime) / max 0.01 (s.endTime - s.startTime)) ≤
        min 1 ((t2 - s.startTime) / max 0.01 (s.endTime - s.startTime)) :=
      min_le_min le_rfl (div_le_div_of_nonneg_right (by linarith) hd.le)
    have hf := Int.floor_mono (mul_le_mul_of_nonneg_left hp (Nat.cast_nonneg s.text.length))
    exact min_le_min (Int.toNat_le_toNat (max_le_max le_rfl hf)) le_rfl

/-- C3 at a concrete input: text "Hi" over the window [1, 2], from t = 0
(before the window, empty) to t = 2 (full text). -/
theorem visibleTextAtTime_length_mono_witness :
    typewriterHi.inAnim = "typewriter" ∧ (0 : ℚ) ≤ 2 ∧
    (visibleTextAtTime typewriterHi 0).length ≤ (visibleTextAtTime typewriterHi 2).length :=
  ⟨rfl, by norm_num, visibleTextAtTime_length_mono typewriterHi 0 2 rfl (by norm_num)⟩

/-- The in-fade ramp is non-decreasing in the query time. -/
theorem inRamp_mono (start t1 t2 : ℚ) (h : t1 ≤ t2) :
    min (1 : ℚ) (max 0 ((t1 - start) / 0.5)) ≤ min 1 (max 0 ((t2 - start) / 0.5)) :=
  min_le_min le_rfl
    (max_le_max le_rfl (div_le_div_of_nonneg_right (by linarith) (by norm_num)))

/-- The out-fade ramp is non-increasing in the query time. -/
theorem outRamp_anti (stop t1 t2 : ℚ) (h : t1 ≤ t2) :
    min (1 : ℚ) (max 0 ((stop - t2) / 0.5)) ≤ min 1 (max 0 ((stop - t1) / 0.5)) :=
  min_le_min le_rfl
    (max_le_max le_rfl (div_le_div_of_nonneg_right (by linarith) (by norm_num)))

/-- A ramp whose argument is at least half a second is saturated at 1. -/
theorem ramp_eq_one (x : ℚ) (h : 0.5 ≤ x) : min (1 : ℚ) (max 0 (x / 0.5)) = 1 := by
  have h1 : (1 : ℚ) ≤ x / 0.5 := by
    rw [le_div_iff₀ (by norm_num)]
    linarith
  exact min_eq_left (le_trans h1 (le_max_right _ _))

/-- A ramp is never negative. -/
theorem ramp_nonneg (x : ℚ) : 0 ≤ min (1 : ℚ) (max 0 (x / 0.5)) :=
  le_min (by norm_num) (le_max_left _ _)

/-- The opacity is never negative. -/
theorem opacityAtTime_nonneg (s : Page) (t : ℚ) : 0 ≤ opacityAtTime s t := by
  unfold opacityAtTime
  by_cases hv : isVisible s = true
  · simp only [hv, Bool.not_true, Bool.false_eq_true, if_false]
    have r1 := ramp_nonneg (t - s.startTime)
    have r2 := ramp_nonneg (s.endTime - t)
    split_ifs
    · exact le_min r1 r2
    · exact le_min zero_le_one r2
    · exact r1
    · exact zero_le_one
  · simp [hv]

/-- The visibility guard of the page whose preview clock was set to `c`. -/
theorem isVisible_tick (s : Page) (c : ℚ) :
    isVisible (update s (Event.tick c)) = true ↔ s.startTime ≤ c ∧ c ≤ s.endTime := by
  simp [isVisible, update]

/-- On the preview path the source shows the opacity the specification words:
0 outside the window, the ramps inside. -/
theorem previewOpacity_tick (s : Page) (t : ℚ) :
    previewOpacity (update s (Event.tick t)) = opacityClaimed s t := by
  unfold previewOpacity
  rw [opacityAtTime_eq_claimed_of_currentTime _ _ rfl]
  rfl

/-- In-fade monotonicity between two page states with the same configuration,
the second visible whenever the first is. -/
theorem opacityAtTime_fade_in_mono_of_gate (s1 s2 : Page) (t1 t2 : ℚ)
    (hs : s2.startTime = s1.startTime) (he : s2.endTime = s1.endTime)
    (hi : s2.inAnim = s1.inAnim) (ho : s2.outAnim = s1.outAnim)
    (hgate : isVisible s1 = true → isVisible s2 = true)
    (hin : s1.inAnim = "fade")
    (hout : s1.outAnim ≠ "fade" ∨ s1.startTime + 1 ≤ s1.endTime)
    (h12 : t1 ≤ t2) (h2 : t2 ≤ s1.startTime + 0.5) :
    opacityAtTime s1 t1 ≤ opacityAtTime s2 t2 := by
  by_cases hv : isVisible s1 = true
  · have hv2 := hgate hv
    unfold opacityAtTime
    simp only [hv, hv2, hs, he, hi, ho, Bool.not_true, Bool.false_eq_true, if_false, hin, if_true]
    by_cases hof : s1.outAnim = "fade"
    · have hgap : s1.startTime + 1 ≤ s1.endTime := hout.resolve_left (fun h => h hof)
      have e1 := ramp_eq_one (s1.endTime - t1) (by norm_num; linarith)
      have e2 := ramp_eq_one (s1.endTime - t2) (by norm_num; linarith)
      simp only [hof, if_true, e1, e2]
      exact min_le_min (inRamp_mono s1.startTime t1 t2 h12) le_rfl
    · simp only [hof, if_false]
      exact inRamp_mono s1.startTime t1 t2 h12
  · have h0 : opacityAtTime s1 t1 = 0 := by simp [opacityAtTime, hv]
    rw [h0]
    exact opacityAtTime_nonneg s2 t2

/-- Out-fade monotonicity between two page states with the same configuration,
the first visible whenever the second is. -/
theorem opacityAtTime_fade_out_anti_of_gate (s1 s2 : Page) (t1 t2 : ℚ)
    (hs : s2.startTime = s1.startTime) (he : s2.endTime = s1.endTime)
    (hi : s2.inAnim = s1.inAnim) (ho : s2.outAnim = s1.outAnim)
    (hgate : isVisible s2 = true → isVisible s1 = true)
    (hout : s1.outAnim = "fade")
    (hin : s1.inAnim ≠ "fade" ∨ s1.startTime + 1 ≤ s1.endTime)
    (h1 : s1.endTime - 0.5 ≤ t1) (h12 : t1 ≤ t2) :
    opacityAtTime s2 t2 ≤ opacityAtTime s1 t1 := by
  by_cases hv : isVisible s2 = true
  · have hv1 := hgate hv
    unfold opacityAtTime
    simp only [hv, hv1, hs, he, hi, ho, Bool.not_true, Bool.false_eq_true, if_false, hout,
      if_true]
    by_cases hif : s1.inAnim = "fade"
    · have hgap : s1.startTime + 1 ≤ s1.endTime := hin.resolve_left (fun h => h hif)
      have e1 := ramp_eq_one (t1 - s1.startTime) (by norm_num at h1 ⊢; linarith)
      have e2 := ramp_eq_one (t2 - s1.startTime) (by norm_num at h1 ⊢; linarith)
      simp only [hif, if_true, e1, e2]
      exact min_le_min le_rfl (outRamp_anti s1.endTime t1 t2 h12)
    · simp only [hif, if_false]
      exact min_le_min le_rfl (outRamp_anti s1.endTime t1 t2 h12)
  · have h0 : opacityAtTime s2 t2 = 0 := by simp [opacityAtTime, hv]
    rw [h0]
    exact opacityAtTime_nonneg s1 t1

/-- C4, as stated, fails in two ways, both inside `[startTime, startTime + 0.5]`.
With fade in and fade out over the window [0, 0.5] the opacity is 0.5 at
t1 = 0.25 and 0 at t2 = 0.5, whether the preview clock stands at 0.25 or at
0.5. With fade in only over the window [0.3, 0.5] the preview shows opacity
0.4 at t1 = 0.5 and 0 at t2 = 0.7, which is past `endTime`. -/
theorem opacityAtTime_fade_in_not_mono :
    (fadeBoth 0.25).inAnim = "fade" ∧
    (fadeBoth 0.25).startTime ≤ (fadeBoth 0.25).endTime ∧
    (fadeBoth 0.25).startTime ≤ 0.25 ∧ (0.25 : ℚ) ≤ 0.5 ∧
    (0.5 : ℚ) ≤ (fadeBoth 0.25).startTime + 0.5 ∧
    opacityAtTime (fadeBoth 0.25) 0.25 = 0.5 ∧
    opacityAtTime (fadeBoth 0.25) 0.5 = 0 ∧
    opacityAtTime (fadeBoth 0.5) 0.5 = 0 ∧
    (¬ opacityAtTime (fadeBoth 0.25) 0.25 ≤ opacityAtTime (fadeBoth 0.25) 0.5) ∧
    (fadeInShort 0).inAnim = "fade" ∧
    (fadeInShort 0).startTime ≤ (fadeInShort 0).endTime ∧
    (fadeInShort 0).startTime ≤ 0.5 ∧ (0.5 : ℚ) ≤ 0.7 ∧
    (0.7 : ℚ) ≤ (fadeInShort 0).startTime + 0.5 ∧
    previewOpacity (update (fadeInShort 0) (Event.tick 0.5)) = 0.4 ∧
    previewOpacity (update (fadeInShort 0) (Event.tick 0.7)) = 0 := by
  have hne : ¬ "none" = "fade" := by decide
  refine ⟨?_, ?_, ?_, ?_, ?_, ?_, ?_, ?_, ?_, ?_, ?_, ?_, ?_, ?_, ?_, ?_⟩ <;>
    norm_num [previewOpacity, opacityAtTime, isVisible, update, fadeBoth, fadeInShort,
      initialPage, hne]

/-- C4, amended: with fade in, and either no fade out or a window at least one
second long, the opacity is non-decreasing from `t1` to `t2` whenever
`t1 <= t2`, `t2 <= startTime + 0.5` and `t2 <= endTime`: on the preview path,
where each query is made with the clock at the query time, for two queries
made in one page state, and for the opacity as the specification words it. -/
theorem opacityAtTime_fade_in_mono (s : Page) (t1 t2 : ℚ)
    (hin : s.inAnim = "fade")
    (hout : s.outAnim ≠ "fade" ∨ s.startTime + 1 ≤ s.endTime)
    (h12 : t1 ≤ t2) (h2 : t2 ≤ s.startTime + 0.5) (h2e : t2 ≤ s.endTime) :
    previewOpacity (update s (Event.tick t1)) ≤ previewOpacity (update s (Event.tick t2)) ∧
    opacityAtTime s t1 ≤ opacityAtTime s t2 ∧
    opacityClaimed s t1 ≤ opacityClaimed s t2 := by
  have hp : previewOpacity (update s (Event.tick t1)) ≤
      previewOpacity (update s (Event.tick t2)) := by
    refine opacityAtTime_fade_in_mono_of_gate (update s (Event.tick t1))
      (update s (Event.tick t2)) t1 t2 rfl rfl rfl rfl ?_ hin hout h12 h2
    intro hv
    rw [isVisible_tick] at hv ⊢
    exact ⟨le_trans hv.1 h12, h2e⟩
  refine ⟨hp, ?_, ?_⟩
  · exact opacityAtTime_fade_in_mono_of_gate s s t1 t2 rfl rfl rfl rfl id hin hout h12 h2
  · rwa [previewOpacity_tick, previewOpacity_tick] at hp

/-- C4, amended, at a concrete input: the example page (fade in, no fade out,
window [1, 2]), from t1 = 1 to t2 = 1.25, on the preview path and with the
clock held at 1.5. -/
theorem opacityAtTime_fade_in_mono_witness :
    (hiExample 1.5).inAnim = "fade" ∧
    ((hiExample 1.5).outAnim ≠ "fade" ∨ (hiExample 1.5).startTime + 1 ≤ (hiExample 1.5).endTime) ∧
    (1 : ℚ) ≤ 1.25 ∧ (1.25 : ℚ) ≤ (hiExample 1.5).startTime + 0.5 ∧
    (1.25 : ℚ) ≤ (hiExample 1.5).endTime ∧
    (previewOpacity (update (hiExample 1.5) (Event.tick 1)) ≤
      previewOpacity (update (hiExample 1.5) (Event.tick 1.25)) ∧
    opacityAtTime (hiExample 1.5) 1 ≤ opacityAtTime (hiExample 1.5) 1.25 ∧
    opacityClaimed (hiExample 1.5) 1 ≤ opacityClaimed (hiExample 1.5) 1.25) :=
  ⟨rfl, Or.inl (by decide), by norm_num, by norm_num [hiExample], by norm_num [hiExample],
    opacityAtTime_fade_in_mono (hiExample 1.5) 1 1.25 rfl (Or.inl (by decide)) (by norm_num)
      (by norm_num [hiExample]) (by norm_num [hiExample])⟩

/-- C5, as stated, fails in two ways, both inside `[endTime - 0.5, endTime]`.
With fade in and fade out over the window [0, 0.5] the opacity is 0 at t1 = 0
and 0.5 at t2 = 0.25, whether the preview clock stands at 0 or at 0.25. With
fade out only over the window [0.3, 0.5] the preview shows opacity 0 at
t1 = 0.1, which is before `startTime`, and 0.2 at t2 = 0.4. -/
theorem opacityAtTime_fade_out_not_anti :
    (fadeBoth 0.25).outAnim = "fade" ∧
    (fadeBoth 0.25).startTime ≤ (fadeBoth 0.25).endTime ∧
    (fadeBoth 0.25).endTime - 0.5 ≤ 0 ∧ (0 : ℚ) ≤ 0.25 ∧
    (0.25 : ℚ) ≤ (fadeBoth 0.25).endTime ∧
    opacityAtTime (fadeBoth 0.25) 0 = 0 ∧
    opacityAtTime (fadeBoth 0) 0 = 0 ∧
    opacityAtTime (fadeBoth 0.25) 0.25 = 0.5 ∧
    (¬ opacityAtTime (fadeBoth 0.25) 0.25 ≤ opacityAtTime (fadeBoth 0.25) 0) ∧
    (fadeOutShort 0).outAnim = "fade" ∧
    (fadeOutShort 0).startTime ≤ (fadeOutShort 0).endTime ∧
    (fadeOutShort 0).endTime - 0.5 ≤ 0.1 ∧ (0.1 : ℚ) ≤ 0.4 ∧
    (0.4 : ℚ) ≤ (fadeOutShort 0).endTime ∧
    previewOpacity (update (fadeOutShort 0) (Event.tick 0.1)) = 0 ∧
    previewOpacity (update (fadeOutShort 0) (Event.tick 0.4)) = 0.2 := by
  have hne : ¬ "none" = "fade" := by decide
  refine ⟨?_, ?_, ?_, ?_, ?_, ?_, ?_, ?_, ?_, ?_, ?_, ?_, ?_, ?_, ?_, ?_⟩ <;>
    norm_num [previewOpacity, opacityAtTime, isVisible, update, fadeBoth, fadeOutShort,
      initialPage, hne]

/-- C5, amended: with fade out, and either no fade in or a window at least one
second long, the opacity is non-increasing from `t1` to `t2` whenever
`t1 <= t2`, `t1 >= endTime - 0.5` and `t1 >= startTime`: on the preview path,
where each query is made with the clock at the query time, for two queries
made in one page state, and for the opacity as the specification words it. -/
theorem opacityAtTime_fade_out_anti (s : Page) (t1 t2 : ℚ)
    (hout : s.outAnim = "fade")
    (hin : s.inAnim ≠ "fade" ∨ s.startTime + 1 ≤ s.endTime)
    (h1 : s.endTime - 0.5 ≤ t1) (h1s : s.startTime ≤ t1) (h12 : t1 ≤ t2) :
    previewOpacity (update s (Event.tick t2)) ≤ previewOpacity (update s (Event.tick t1)) ∧
    opacityAtTime s t2 ≤ opacityAtTime s t1 ∧
    opacityClaimed s t2 ≤ opacityClaimed s t1 := by
  have hp : previewOpacity (update s (Event.tick t2)) ≤
      previewOpacity (update s (Event.tick t1)) := by
    refine opacityAtTime_fade_out_anti_of_gate (update s (Event.tick t1))
      (update s (Event.tick t2)) t1 t2 rfl rfl rfl rfl ?_ hout hin h1 h12
    intro hv
    rw [isVisible_tick] at hv ⊢
    exact ⟨h1s, le_trans h12 hv.2⟩
  refine ⟨hp, ?_, ?_⟩
  · exact opacityAtTime_fade_out_anti_of_gate s s t1 t2 rfl rfl rfl rfl id hout hin h1 h12
  · rwa [previewOpacity_tick, previewOpacity_tick] at hp

/-- C5, amended, at a concrete input: fade out only over the window [1, 2],
from t1 = 1.5 to t2 = 2, on the preview path and with the clock held at 1.5. -/
theorem opacityAtTime_fade_out_anti_witness :
    (fadeOutExample 1.5).outAnim = "fade" ∧
    ((fadeOutExample 1.5).inAnim ≠ "fade" ∨
      (fadeOutExample 1.5).startTime + 1 ≤ (fadeOutExample 1.5).endTime) ∧
    (fadeOutExample 1.5).endTime - 0.5 ≤ 1.5 ∧ (fadeOutExample 1.5).startTime ≤ 1.5 ∧
    (1.5 : ℚ) ≤ 2 ∧
    (previewOpacity (update (fadeOutExample 1.5) (Event.tick 2)) ≤
      previewOpacity (update (fadeOutExample 1.5) (Event.tick 1.5)) ∧
    opacityAtTime (fadeOutExample 1.5) 2 ≤ opacityAtTime (fadeOutExample 1.5) 1.5 ∧
    opacityClaimed (fadeOutExample 1.5) 2 ≤ opacityClaimed (fadeOutExample 1.5) 1.5) :=
  ⟨rfl, Or.inl (by decide), by norm_num [fadeOutExample], by norm_num [fadeOutExample],
    by norm_num,
    opacityAtTime_fade_out_anti (fadeOutExample 1.5) 1.5 2 rfl (Or.inl (by decide))
      (by norm_num [fadeOutExample]) (by norm_num [fadeOutExample]) (by norm_num)⟩

/-! ### Double arithmetic -/

/-- An integer rounds to itself. -/
theorem roundHalfEven_intCast (n : ℤ) : roundHalfEven (n : ℚ) = n := by
  simp [roundHalfEven]

/-- Evaluation of the rounding: `m` when `y` is strictly within a half of `m`,
or exactly a half away from the even `m`. -/
theorem roundHalfEven_eq (y : ℚ) (m : ℤ)
    (h : |y - m| < 1 / 2 ∨ (|y - m| = 1 / 2 ∧ m % 2 = 0)) : roundHalfEven y = m := by
  unfold roundHalfEven
  rcases le_or_lt (m : ℚ) y with hmy | hmy
  · have habs : |y - m| = y - m := abs_of_nonneg (by linarith)
    rw [habs] at h
    have hf : ⌊y⌋ = m := by
      rw [Int.floor_eq_iff]
      rcases h with h | ⟨h, -⟩ <;> constructor <;> linarith
    simp only [hf]
    rcases h with h | ⟨h, he⟩
    · rw [if_pos h]
    · have h1 : ¬ (y - m < 1 / 2) := by linarith
      have h2 : ¬ (1 / 2 < y - m) := by linarith
      rw [if_neg h1, if_neg h2, if_pos he]
  · have habs : |y - m| = m - y := by rw [abs_sub_comm]; exact abs_of_nonneg (by linarith)
    rw [habs] at h
    have hf : ⌊y⌋ = m - 1 := by
      rw [Int.floor_eq_iff]
      push_cast
      rcases h with h | ⟨h, -⟩ <;> constructor <;> linarith
    simp only [hf, Int.cast_sub, Int.cast_one]
    rcases h with h | ⟨h, he⟩
    · have h1 : ¬ (y - ((m : ℚ) - 1) < 1 / 2) := by linarith
      have h2 : (1 / 2 < y - ((m : ℚ) - 1)) := by linarith
      rw [if_neg h1, if_pos h2]
      omega
    · have h1 : ¬ (y - ((m : ℚ) - 1) < 1 / 2) := by linarith
      have h2 : ¬ (1 / 2 < y - ((m : ℚ) - 1)) := by linarith
      have h3 : ¬ ((m - 1) % 2 = 0) := by omega
      rw [if_neg h1, if_neg h2, if_neg h3]
      omega

/-- Rounding to the nearest integer is monotone. -/
theorem roundHalfEven_mono {y1 y2 : ℚ} (h : y1 ≤ y2) : roundHalfEven y1 ≤ roundHalfEven y2 := by
  have hfl : ⌊y1⌋ ≤ ⌊y2⌋ := Int.floor_mono h
  have hl1 : (⌊y1⌋ : ℚ) ≤ y1 := Int.floor_le y1
  have hl2 : (⌊y2⌋ : ℚ) ≤ y2 := Int.floor_le y2
  unfold roundHalfEven
  rcases lt_or_eq_of_le hfl with hlt | heq
  · simp only []
    split_ifs <;> omega
  · simp only []
    rw [heq] at hl1 ⊢
    split_ifs <;> first | omega | (exfalso; linarith)

/-- The spacing exponent in the binade `[2^k, 2^(k+1))` of the normal range. -/
theorem ulpExp_eq (x : ℚ) (k : ℤ) (hk : -1022 ≤ k) (hlo : (2 : ℚ) ^ k ≤ |x|)
    (hhi : |x| < (2 : ℚ) ^ (k + 1)) : ulpExp x = k - 52 := by
  have hpos : (0 : ℚ) < |x| := lt_of_lt_of_le (by positivity) hlo
  have h1 : k ≤ Int.log 2 |x| := (Int.zpow_le_iff_le_log (by norm_num) hpos).mp (by exact_mod_cast hlo)
  have h2 : Int.log 2 |x| < k + 1 := (Int.lt_zpow_iff_log_lt (by norm_num) hpos).mp (by exact_mod_cast hhi)
  unfold ulpExp
  have : Int.log 2 |x| = k := by omega
  rw [this]
  exact max_eq_left (by omega)

/-- Evaluation of `toDouble` in the binade `[2^k, 2^(k+1))`. -/
theorem toDouble_eq (x : ℚ) (k m : ℤ) (hk : -1022 ≤ k) (hlo : (2 : ℚ) ^ k ≤ |x|)
    (hhi : |x| < (2 : ℚ) ^ (k + 1))
    (hm : |x / 2 ^ (k - 52) - m| < 1 / 2 ∨ (|x / 2 ^ (k - 52) - m| = 1 / 2 ∧ m % 2 = 0)) :
    toDouble x = (m : ℚ) * 2 ^ (k - 52) := by
  unfold toDouble
  rw [ulpExp_eq x k hk hlo hhi, roundHalfEven_eq _ m hm]

/-- Rounding on the grid of spacing `2^e` stays below a grid point above the input. -/
theorem roundGrid_le (e : ℤ) (x : ℚ) (n : ℤ) (h : x ≤ n * 2 ^ e) :
    (roundHalfEven (x / 2 ^ e) : ℚ) * 2 ^ e ≤ n * 2 ^ e := by
  have hp : (0 : ℚ) < 2 ^ e := by positivity
  have h1 : x / 2 ^ e ≤ (n : ℚ) := by rwa [div_le_iff₀ hp]
  have h2 := roundHalfEven_mono h1
  rw [roundHalfEven_intCast] at h2
  exact mul_le_mul_of_nonneg_right (by exact_mod_cast h2) hp.le

/-- Rounding on the grid of spacing `2^e` stays above a grid point below the input. -/
theorem le_roundGrid (e : ℤ) (x : ℚ) (n : ℤ) (h : n * 2 ^ e ≤ x) :
    (n : ℚ) * 2 ^ e ≤ (roundHalfEven (x / 2 ^ e) : ℚ) * 2 ^ e := by
  have hp : (0 : ℚ) < 2 ^ e := by positivity
  have h1 : (n : ℚ) ≤ x / 2 ^ e := by rwa [le_div_iff₀ hp]
  have h2 := roundHalfEven_mono h1
  rw [roundHalfEven_intCast] at h2
  exact mul_le_mul_of_nonneg_right (by exact_mod_cast h2) hp.le

/-- A power of two is a grid point of every finer grid. -/
theorem zpow_eq_int_mul (a e : ℤ) (h : e ≤ a) : ∃ n : ℤ, (2 : ℚ) ^ a = n * 2 ^ e := by
  refine ⟨2 ^ (a - e).toNat, ?_⟩
  have hd : ((a - e).toNat : ℤ) = a - e := Int.toNat_of_nonneg (by omega)
  have : (2 : ℚ) ^ (a - e) = ((2 ^ (a - e).toNat : ℤ) : ℚ) := by
    rw [← hd, zpow_natCast, hd]
    push_cast
    rfl
  rw [← this, ← zpow_add₀ (by norm_num : (2 : ℚ) ≠ 0)]
  congr 1
  omega

/-- Zero is a double. -/
theorem toDouble_zero : toDouble 0 = 0 := by
  simp [toDouble, roundHalfEven]

/-- Rounding keeps the sign: non-negative inputs. -/
theorem toDouble_nonneg (x : ℚ) (h : 0 ≤ x) : 0 ≤ toDouble x := by
  have := le_roundGrid (ulpExp x) x 0 (by simpa using h)
  simpa [toDouble] using this

/-- Rounding keeps the sign: non-positive inputs. -/
theorem toDouble_nonpos (x : ℚ) (h : x ≤ 0) : toDouble x ≤ 0 := by
  have := roundGrid_le (ulpExp x) x 0 (by simpa using h)
  simpa [toDouble] using this

/-- The binade of a non-zero rational: lower end. -/
theorem zpow_log_le_abs (x : ℚ) (hx : x ≠ 0) : (2 : ℚ) ^ Int.log 2 |x| ≤ |x| := by
  exact_mod_cast Int.zpow_log_le_self (b := 2) (by norm_num) (abs_pos.mpr hx)

/-- The binade of a rational: upper end. -/
theorem abs_lt_zpow_log_succ (x : ℚ) : |x| < (2 : ℚ) ^ (Int.log 2 |x| + 1) := by
  exact_mod_cast Int.lt_zpow_succ_log_self (b := 2) (by norm_num) |x|

/-- Rounding to the nearest double is monotone on positive inputs. -/
theorem toDouble_mono_pos (x y : ℚ) (hx : 0 < x) (hxy : x ≤ y) : toDouble x ≤ toDouble y := by
  have hy : 0 < y := lt_of_lt_of_le hx hxy
  have hlog : Int.log 2 |x| ≤ Int.log 2 |y| :=
    Int.log_mono_right (abs_pos.mpr hx.ne') (by rwa [abs_of_pos hx, abs_of_pos hy])
  have hxlt : x < (2 : ℚ) ^ (Int.log 2 |x| + 1) :=
    lt_of_le_of_lt (le_abs_self x) (abs_lt_zpow_log_succ x)
  have hyle : (2 : ℚ) ^ Int.log 2 |y| ≤ y :=
    le_trans (zpow_log_le_abs y hy.ne') (abs_of_pos hy).le
  have hp : ∀ e : ℤ, (0 : ℚ) < 2 ^ e := fun e => by positivity
  rcases lt_or_eq_of_le (max_le_max (sub_le_sub_right hlog 52) (le_refl (-1074 : ℤ)))
    with hlt | heq
  · -- the exponents differ: a power of two separates the two results
    have hey : ulpExp y = Int.log 2 |y| - 52 := by
      unfold ulpExp
      apply max_eq_left
      have : (-1074 : ℤ) ≤ max (Int.log 2 |x| - 52) (-1074) := le_max_right _ _
      have h2 : max (Int.log 2 |y| - 52) (-1074) = Int.log 2 |y| - 52 ∨
          max (Int.log 2 |y| - 52) (-1074) = -1074 := by
        rcases le_total (Int.log 2 |y| - 52) (-1074) with h | h
        · right; exact max_eq_right h
        · left; exact max_eq_left h
      omega
    have hex : ulpExp x < ulpExp y := hlt
    have hkx : Int.log 2 |x| - 52 ≤ ulpExp x := le_max_left _ _
    have hsucc : Int.log 2 |x| + 1 ≤ Int.log 2 |y| := by omega
    have hB : x ≤ (2 : ℚ) ^ Int.log 2 |y| :=
      le_trans hxlt.le (zpow_le_zpow_right₀ (by norm_num) hsucc)
    obtain ⟨n1, hn1⟩ := zpow_eq_int_mul (Int.log 2 |y|) (ulpExp x) (by omega)
    obtain ⟨n2, hn2⟩ := zpow_eq_int_mul (Int.log 2 |y|) (ulpExp y) (by omega)
    have h1 := roundGrid_le (ulpExp x) x n1 (by rw [← hn1]; exact hB)
    have h2 := le_roundGrid (ulpExp y) y n2 (by rw [← hn2]; exact hyle)
    rw [← hn1] at h1
    rw [← hn2] at h2
    exact le_trans h1 h2
  · have he : ulpExp x = ulpExp y := heq
    unfold toDouble
    rw [he]
    have := roundHalfEven_mono (div_le_div_of_nonneg_right hxy (hp (ulpExp y)).le)
    exact mul_le_mul_of_nonneg_right (by exact_mod_cast this) (hp _).le

/-- Rounding to the nearest double is monotone on negative inputs. -/
theorem toDouble_mono_neg (x y : ℚ) (hy : y < 0) (hxy : x ≤ y) : toDouble x ≤ toDouble y := by
  have hx : x < 0 := lt_of_le_of_lt hxy hy
  have hlog : Int.log 2 |y| ≤ Int.log 2 |x| :=
    Int.log_mono_right (abs_pos.mpr hy.ne) (by rw [abs_of_neg hx, abs_of_neg hy]; linarith)
  have hylt : -y < (2 : ℚ) ^ (Int.log 2 |y| + 1) :=
    lt_of_le_of_lt (neg_le_abs y) (abs_lt_zpow_log_succ y)
  have hxle : (2 : ℚ) ^ Int.log 2 |x| ≤ -x :=
    le_trans (zpow_log_le_abs x hx.ne) (abs_of_neg hx).le
  have hp : ∀ e : ℤ, (0 : ℚ) < 2 ^ e := fun e => by positivity
  rcases lt_or_eq_of_le (max_le_max (sub_le_sub_right hlog 52) (le_refl (-1074 : ℤ)))
    with hlt | heq
  · have hex : ulpExp x = Int.log 2 |x| - 52 := by
      unfold ulpExp
      apply max_eq_left
      have : (-1074 : ℤ) ≤ max (Int.log 2 |y| - 52) (-1074) := le_max_right _ _
      have h2 : max (Int.log 2 |x| - 52) (-1074) = Int.log 2 |x| - 52 ∨
          max (Int.log 2 |x| - 52) (-1074) = -1074 := by
        rcases le_total (Int.log 2 |x| - 52) (-1074) with h | h
        · right; exact max_eq_right h
        · left; exact max_eq_left h
      omega
    have hey : ulpExp y < ulpExp x := hlt
    have hky : Int.log 2 |y| - 52 ≤ ulpExp y := le_max_left _ _
    have hsucc : Int.log 2 |y| + 1 ≤ Int.log 2 |x| := by omega
    have hB : -((2 : ℚ) ^ Int.log 2 |x|) ≤ y := by
      have := le_trans hylt.le (zpow_le_zpow_right₀ (by norm_num : (1 : ℚ) ≤ 2) hsucc)
      linarith
    obtain ⟨n1, hn1⟩ := zpow_eq_int_mul (Int.log 2 |x|) (ulpExp x) (by omega)
    obtain ⟨n2, hn2⟩ := zpow_eq_int_mul (Int.log 2 |x|) (ulpExp y) (by omega)
    have h1 := roundGrid_le (ulpExp x) x (-n1) (by push_cast; rw [neg_mul, ← hn1]; linarith)
    have h2 := le_roundGrid (ulpExp y) y (-n2) (by push_cast; rw [neg_mul, ← hn2]; exact hB)
    push_cast at h1 h2
    rw [neg_mul, ← hn1] at h1
    rw [neg_mul, ← hn2] at h2
    exact le_trans h1 h2
  · have he : ulpExp y = ulpExp x := heq
    unfold toDouble
    rw [he]
    have := roundHalfEven_mono (div_le_div_of_nonneg_right hxy (hp (ulpExp x)).le)
    exact mul_le_mul_of_nonneg_right (by exact_mod_cast this) (hp _).le

/-- Rounding to the nearest double is monotone. -/
theorem toDouble_mono {x y : ℚ} (hxy : x ≤ y) : toDouble x ≤ toDouble y := by
  rcases lt_trichotomy 0 x with hx | hx | hx
  · exact toDouble_mono_pos x y hx hxy
  · subst hx
    rw [toDouble_zero]
    exact toDouble_nonneg y hxy
  · rcases lt_or_le y 0 with hy | hy
    · exact toDouble_mono_neg x y hy hxy
    · exact le_trans (toDouble_nonpos x hx.le) (toDouble_nonneg y hy)


/-- Evaluation of `toDouble` at a positive input strictly nearest to `m * 2^(k-52)`. -/
theorem toDouble_eq_near (x : ℚ) (k m : ℤ) (hk : -1022 ≤ k) (hlo : (2 : ℚ) ^ k ≤ x)
    (hhi : x < (2 : ℚ) ^ (k + 1))
    (h1 : ((m : ℚ) - 1 / 2) * 2 ^ (k - 52) < x) (h2 : x < ((m : ℚ) + 1 / 2) * 2 ^ (k - 52)) :
    toDouble x = (m : ℚ) * 2 ^ (k - 52) := by
  have hx : 0 < x := lt_of_lt_of_le (by positivity) hlo
  have hp : (0 : ℚ) < 2 ^ (k - 52) := by positivity
  refine toDouble_eq x k m hk (by rwa [abs_of_pos hx]) (by rwa [abs_of_pos hx]) (Or.inl ?_)
  rw [abs_lt]
  constructor
  · have : (m : ℚ) - 1 / 2 < x / 2 ^ (k - 52) := by rwa [lt_div_iff₀ hp]
    linarith
  · have : x / 2 ^ (k - 52) < (m : ℚ) + 1 / 2 := by rwa [div_lt_iff₀ hp]
    linarith

/-- Evaluation of `toDouble` at a positive input halfway between two doubles:
the one with the even significand `m` is taken. -/
theorem toDouble_eq_tie (x : ℚ) (k m : ℤ) (hk : -1022 ≤ k) (hlo : (2 : ℚ) ^ k ≤ x)
    (hhi : x < (2 : ℚ) ^ (k + 1)) (hm : m % 2 = 0)
    (h : x = ((m : ℚ) - 1 / 2) * 2 ^ (k - 52) ∨ x = ((m : ℚ) + 1 / 2) * 2 ^ (k - 52)) :
    toDouble x = (m : ℚ) * 2 ^ (k - 52) := by
  have hx : 0 < x := lt_of_lt_of_le (by positivity) hlo
  have hp : (0 : ℚ) < 2 ^ (k - 52) := by positivity
  refine toDouble_eq x k m hk (by rwa [abs_of_pos hx]) (by rwa [abs_of_pos hx]) (Or.inr ⟨?_, hm⟩)
  rcases h with h | h
  · have : x / 2 ^ (k - 52) - m = -(1 / 2) := by
      rw [h, mul_div_assoc, div_self hp.ne']
      ring
    rw [this, abs_neg, abs_of_pos (by norm_num)]
  · have : x / 2 ^ (k - 52) - m = 1 / 2 := by
      rw [h, mul_div_assoc, div_self hp.ne']
      ring
    rw [this, abs_of_pos (by norm_num)]

/-! ### Doubles of the examples -/

/-- The number 1 is a double. -/
theorem toDouble_one : toDouble 1 = 1 := by
  have h := toDouble_eq_near 1 (0) 4503599627370496
    (by norm_num) (by norm_num) (by norm_num) (by norm_num) (by norm_num)
  rw [h]
  norm_num

/-- The number 2 is a double. -/
theorem toDouble_two : toDouble 2 = 2 := by
  have h := toDouble_eq_near 2 (1) 4503599627370496
    (by norm_num) (by norm_num) (by norm_num) (by norm_num) (by norm_num)
  rw [h]
  norm_num

/-- The product 2 * 20 is the double 40. -/
theorem toDouble_forty : toDouble (2 * 20) = 40 := by
  have h := toDouble_eq_near (2 * 20) (5) 5629499534213120
    (by norm_num) (by norm_num) (by norm_num) (by norm_num) (by norm_num)
  rw [h]
  norm_num

/-- The quotient 1280 / 2 is the double 640. -/
theorem toDouble_half_1280 : toDouble (1280 / 2) = 640 := by
  have h := toDouble_eq_near (1280 / 2) (9) 5629499534213120
    (by norm_num) (by norm_num) (by norm_num) (by norm_num) (by norm_num)
  rw [h]
  norm_num

/-- The quotient 720 / 2 is the double 360. -/
theorem toDouble_half_720 : toDouble (720 / 2) = 360 := by
  have h := toDouble_eq_near (720 / 2) (8) 6333186975989760
    (by norm_num) (by norm_num) (by norm_num) (by norm_num) (by norm_num)
  rw [h]
  norm_num

/-- The literal 0.12 as a double. -/
theorem toDouble_lit_0_12 : toDouble 0.12 = 8646911284551352 / 2 ^ 56 := by
  have h := toDouble_eq_near 0.12 (-4) 8646911284551352
    (by norm_num) (by norm_num) (by norm_num) (by norm_num) (by norm_num)
  rw [h]
  norm_num

/-- The literal 0.88 as a double. -/
theorem toDouble_lit_0_88 : toDouble 0.88 = 7926335344172073 / 2 ^ 53 := by
  have h := toDouble_eq_near 0.88 (-1) 7926335344172073
    (by norm_num) (by norm_num) (by norm_num) (by norm_num) (by norm_num)
  rw [h]
  norm_num

/-- The double product of 720 and the literal 0.12: it prints as 86.39999999999999. -/
theorem toDouble_720_mul_0_12 : toDouble (720 * (8646911284551352 / 2 ^ 56)) = 6079859496950169 / 2 ^ 46 := by
  have h := toDouble_eq_near (720 * (8646911284551352 / 2 ^ 56)) (6) 6079859496950169
    (by norm_num) (by norm_num) (by norm_num) (by norm_num) (by norm_num)
  rw [h]
  norm_num

/-- The double product of 720 and the literal 0.88: it prints as 633.6. -/
theorem toDouble_720_mul_0_88 : toDouble (720 * (7926335344172073 / 2 ^ 53)) = 5573204538870989 / 2 ^ 43 := by
  have h := toDouble_eq_near (720 * (7926335344172073 / 2 ^ 53)) (9) 5573204538870989
    (by norm_num) (by norm_num) (by norm_num) (by norm_num) (by norm_num)
  rw [h]
  norm_num

/-- The literal 86.4 as a double. -/
theorem toDouble_lit_86_4 : toDouble 86.4 = 6079859496950170 / 2 ^ 46 := by
  have h := toDouble_eq_near 86.4 (6) 6079859496950170
    (by norm_num) (by norm_num) (by norm_num) (by norm_num) (by norm_num)
  rw [h]
  norm_num

/-- The literal 633.6 as a double. -/
theorem toDouble_lit_633_6 : toDouble 633.6 = 5573204538870989 / 2 ^ 43 := by
  have h := toDouble_eq_near 633.6 (9) 5573204538870989
    (by norm_num) (by norm_num) (by norm_num) (by norm_num) (by norm_num)
  rw [h]
  norm_num

/-- The slider value 1.2 as a double. -/
theorem toDouble_lit_1_2 : toDouble 1.2 = 5404319552844595 / 2 ^ 52 := by
  have h := toDouble_eq_near 1.2 (0) 5404319552844595
    (by norm_num) (by norm_num) (by norm_num) (by norm_num) (by norm_num)
  rw [h]
  norm_num

/-- The slider value 0.3 as a double. -/
theorem toDouble_lit_0_3 : toDouble 0.3 = 5404319552844595 / 2 ^ 54 := by
  have h := toDouble_eq_near 0.3 (-2) 5404319552844595
    (by norm_num) (by norm_num) (by norm_num) (by norm_num) (by norm_num)
  rw [h]
  norm_num

/-- The slider value 0.7 as a double. -/
theorem toDouble_lit_0_7 : toDouble 0.7 = 6305039478318694 / 2 ^ 53 := by
  have h := toDouble_eq_near 0.7 (-1) 6305039478318694
    (by norm_num) (by norm_num) (by norm_num) (by norm_num) (by norm_num)
  rw [h]
  norm_num

/-- The slider value 0.4 as a double. -/
theorem toDouble_lit_0_4 : toDouble 0.4 = 7205759403792794 / 2 ^ 54 := by
  have h := toDouble_eq_near 0.4 (-2) 7205759403792794
    (by norm_num) (by norm_num) (by norm_num) (by norm_num) (by norm_num)
  rw [h]
  norm_num

/-- The double difference 1.2 - 0.3, a tie rounded to the even significand: it prints as 0.8999999999999999. -/
theorem toDouble_1_2_sub_0_3 : toDouble (5404319552844595 / 2 ^ 52 - 5404319552844595 / 2 ^ 54) = 8106479329266892 / 2 ^ 53 := by
  have h := toDouble_eq_tie (5404319552844595 / 2 ^ 52 - 5404319552844595 / 2 ^ 54) (-1) 8106479329266892
    (by norm_num) (by norm_num) (by norm_num) (by norm_num) (Or.inr (by norm_num))
  rw [h]
  norm_num

/-- The double difference 0.7 - 0.4, exact: it prints as 0.29999999999999993. -/
theorem toDouble_0_7_sub_0_4 : toDouble (6305039478318694 / 2 ^ 53 - 7205759403792794 / 2 ^ 54) = 5404319552844594 / 2 ^ 54 := by
  have h := toDouble_eq_near (6305039478318694 / 2 ^ 53 - 7205759403792794 / 2 ^ 54) (-2) 5404319552844594
    (by norm_num) (by norm_num) (by norm_num) (by norm_num) (by norm_num)
  rw [h]
  norm_num

/-- The double product 0.8999999999999999 * 20, a tie rounded up to 18. -/
theorem toDouble_span_0_9_mul_20 : toDouble (8106479329266892 / 2 ^ 53 * 20) = 18 := by
  have h := toDouble_eq_tie (8106479329266892 / 2 ^ 53 * 20) (4) 5066549580791808
    (by norm_num) (by norm_num) (by norm_num) (by norm_num) (Or.inl (by norm_num))
  rw [h]
  norm_num

/-- The double product 0.29999999999999993 * 20, a tie rounded down: it prints as 5.999999999999998. -/
theorem toDouble_span_0_3_mul_20 : toDouble (5404319552844594 / 2 ^ 54 * 20) = 6755399441055742 / 2 ^ 50 := by
  have h := toDouble_eq_tie (5404319552844594 / 2 ^ 54 * 20) (2) 6755399441055742
    (by norm_num) (by norm_num) (by norm_num) (by norm_num) (Or.inr (by norm_num))
  rw [h]
  norm_num

/-! ### Anchor -/

/-- C10, as stated, fails at its own example: on a 1280x720 surface the top
anchor is `(640, 6079859496950169 / 2^46)`, the double that prints as
86.39999999999999. It is neither the number 86.4 nor the double nearest to
86.4, which is `6079859496950170 / 2^46`. -/
theorem anchorPosition_top_not_86_4 :
    anchorPosition 1280 720 "top" = (640, 6079859496950169 / 2 ^ 46) ∧
    toDouble 86.4 = 6079859496950170 / 2 ^ 46 ∧
    anchorPosition 1280 720 "top" ≠ (640, 86.4) ∧
    anchorPosition 1280 720 "top" ≠ (640, toDouble 86.4) := by
  have htop : anchorPosition 1280 720 "top" = (640, 6079859496950169 / 2 ^ 46) := by
    simp only [anchorPosition, if_true, toDouble_half_1280, toDouble_lit_0_12,
      toDouble_720_mul_0_12]
  refine ⟨htop, toDouble_lit_86_4, ?_, ?_⟩
  · rw [htop]
    norm_num
  · rw [htop, toDouble_lit_86_4]
    norm_num

/-- C10, amended: in double arithmetic the anchor is `(w/2, h*0.12)` for top,
`(w/2, h*0.88)` for bottom and `(w/2, h/2)` for middle and for every other
position value, the literal and each operation rounded to the nearest double.
On a 1280x720 surface the top anchor is `(640, 6079859496950169 / 2^46)`, one
unit in the last place (`2^(-46)`) below the double 86.4; the middle anchor is
`(640, 360)`; the bottom anchor is `(640, d)` with `d` the double 633.6. -/
theorem anchorPosition_values (w h : ℚ) (pos : String) :
    anchorPosition w h pos =
      (if pos = "top" then (toDouble (w / 2), toDouble (h * toDouble 0.12))
       else if pos = "bottom" then (toDouble (w / 2), toDouble (h * toDouble 0.88))
       else (toDouble (w / 2), toDouble (h / 2)))
    ∧ anchorPosition w h "middle" = (toDouble (w / 2), toDouble (h / 2))
    ∧ anchorPosition 1280 720 "top" = (640, 6079859496950169 / 2 ^ 46)
    ∧ anchorPosition 1280 720 "top" = (640, toDouble 86.4 - 1 / 2 ^ 46)
    ∧ anchorPosition 1280 720 "middle" = (640, 360)
    ∧ anchorPosition 1280 720 "bottom" = (640, toDouble 633.6) := by
  have htop : anchorPosition 1280 720 "top" = (640, 6079859496950169 / 2 ^ 46) := by
    simp only [anchorPosition, if_true, toDouble_half_1280, toDouble_lit_0_12,
      toDouble_720_mul_0_12]
  have hmt : ¬ "middle" = "top" := by decide
  have hmb : ¬ "middle" = "bottom" := by decide
  have hbt : ¬ "bottom" = "top" := by decide
  refine ⟨rfl, ?_, htop, ?_, ?_, ?_⟩
  · simp only [anchorPosition, hmt, hmb, if_false]
  · rw [htop, toDouble_lit_86_4]
    norm_num
  · simp only [anchorPosition, hmt, hmb, if_false, toDouble_half_1280, toDouble_half_720]
  · simp only [anchorPosition, hbt, if_false, if_true, toDouble_half_1280, toDouble_lit_0_88,
      toDouble_720_mul_0_88, toDouble_lit_633_6]

/-! ### Typewriter cue -/

/-- The click count is at least 1. -/
theorem clickCount_pos (dur : ℚ) (text : List Char) : 1 ≤ clickCount dur text :=
  le_max_left _ _

/-- The number of scheduled clicks is the click count. -/
theorem makeTypewriter_length (startAt dur : ℚ) (text : List Char) :
    ((makeTypewriter startAt dur text).length : ℤ) = clickCount dur text := by
  have h := clickCount_pos dur text
  simp only [makeTypewriter, List.length_map, List.length_range]
  exact Int.toNat_of_nonneg (by omega)

/-- The number of scheduled clicks, as a rational. -/
theorem makeTypewriter_length_cast (startAt dur : ℚ) (text : List Char) :
    ((makeTypewriter startAt dur text).length : ℚ) = (clickCount dur text : ℚ) := by
  exact_mod_cast congrArg (Int.cast : ℤ → ℚ) (makeTypewriter_length startAt dur text)

/-- The start times of the scheduled clicks, in order. -/
theorem makeTypewriter_starts (startAt dur : ℚ) (text : List Char) :
    (makeTypewriter startAt dur text).map Click.start =
      (List.range (clickCount dur text).toNat).map fun (i : ℕ) =>
        toDouble (startAt + toDouble (toDouble ((i : ℚ) / (clickCount dur text : ℚ)) * dur)) := by
  simp only [makeTypewriter, List.map_map]
  rfl

/-- The `i`-th scheduled click, for `i` below the click count. -/
theorem makeTypewriter_getElem? (startAt dur : ℚ) (text : List Char) (i : ℕ)
    (hi : i < (makeTypewriter startAt dur text).length) :
    ((makeTypewriter startAt dur text)[i]?).map Click.start =
      some (toDouble (startAt + toDouble
        (toDouble ((i : ℚ) / ((makeTypewriter startAt dur text).length : ℚ)) * dur))) := by
  rw [makeTypewriter_length_cast]
  simp only [makeTypewriter, List.length_map, List.length_range] at hi
  simp [makeTypewriter, List.getElem?_map, List.getElem?_range, hi]

/-- Every scheduled click is the `i`-th one for some `i` below the count. -/
theorem makeTypewriter_mem (startAt dur : ℚ) (text : List Char) (c : Click)
    (hc : c ∈ makeTypewriter startAt dur text) :
    ∃ i : ℕ, (i : ℤ) < clickCount dur text ∧
      c.start =
        toDouble (startAt + toDouble (toDouble ((i : ℚ) / (clickCount dur text : ℚ)) * dur)) := by
  have h := clickCount_pos dur text
  simp only [makeTypewriter, List.mem_map, List.mem_range] at hc
  obtain ⟨i, hi, rfl⟩ := hc
  exact ⟨i, by omega, rfl⟩

/-- The rounded offset of a click from the schedule start lies between 0 and
the duration. -/
theorem clickOffset_bounds (dur : ℚ) (count : ℤ) (i : ℕ) (hd : toDouble dur = dur)
    (hdur : 0 ≤ dur) (hc : 0 < count) (hi : (i : ℤ) < count) :
    0 ≤ toDouble (toDouble ((i : ℚ) / (count : ℚ)) * dur) ∧
      toDouble (toDouble ((i : ℚ) / (count : ℚ)) * dur) ≤ dur := by
  have hcq : (0 : ℚ) < (count : ℚ) := by exact_mod_cast hc
  have hq0 : 0 ≤ toDouble ((i : ℚ) / (count : ℚ)) := toDouble_nonneg _ (by positivity)
  have hq1 : toDouble ((i : ℚ) / (count : ℚ)) ≤ 1 := by
    have hle : (i : ℚ) / (count : ℚ) ≤ 1 := by
      rw [div_le_one hcq]
      exact_mod_cast hi.le
    have := toDouble_mono hle
    rwa [toDouble_one] at this
  constructor
  · exact toDouble_nonneg _ (mul_nonneg hq0 hdur)
  · have hle : toDouble ((i : ℚ) / (count : ℚ)) * dur ≤ dur := by
      have := mul_le_mul_of_nonneg_right hq1 hdur
      linarith
    have := toDouble_mono hle
    rwa [hd] at this

/-- C8, as stated, fails in three ways. At duration 0 the single click of
`makeTypewriter(0, 0, "a")` starts at 0 = scheduleStart + duration, not before
it. With the sliders at 0.3 and 1.2 the duration passed is the double
0.8999999999999999; for the default 18-character text 18 clicks are scheduled,
where the floor of the product by 20, clamped into [1, 18] with either nesting,
is 17. With the sliders at 0.4 and 0.7 the duration passed is the double
0.29999999999999993 and 5 clicks are scheduled, where the exact difference 0.3
gives 6. -/
theorem makeTypewriter_not_as_claimed :
    (makeTypewriter 0 0 ['a']).map Click.start = [0] ∧
    (¬ ∀ c ∈ makeTypewriter 0 0 ['a'], c.start < 0 + 0) ∧
    exportCueDuration ⟨3, by decide⟩ ⟨7, by decide⟩ = 8106479329266892 / 2 ^ 53 ∧
    (0 : ℚ) ≤ 8106479329266892 / 2 ^ 53 ∧
    (makeTypewriter 0 (8106479329266892 / 2 ^ 53) initialPage.text).length = 18 ∧
    clamp ⌊(8106479329266892 / 2 ^ 53 : ℚ) * 20⌋ 1 (initialPage.text.length : ℤ) = 17 ∧
    max 1 (min (initialPage.text.length : ℤ) ⌊(8106479329266892 / 2 ^ 53 : ℚ) * 20⌋) = 17 ∧
    exportCueDuration ⟨4, by decide⟩ ⟨2, by decide⟩ = 5404319552844594 / 2 ^ 54 ∧
    (makeTypewriter 0 (5404319552844594 / 2 ^ 54) initialPage.text).length = 5 ∧
    max 1 (min (initialPage.text.length : ℤ) ⌊((0.7 : ℚ) - 0.4) * 20⌋) = 6 := by
  have hlen : initialPage.text.length = 18 := by decide
  have h0 : clickCount 0 ['a'] = 1 := by
    simp [clickCount, toDouble_zero]
  have hstart0 : (makeTypewriter 0 0 ['a']).map Click.start = [0] := by
    rw [makeTypewriter_starts, h0]
    simp [List.range_succ, toDouble_zero]
  have hf17 : ⌊(8106479329266892 / 2 ^ 53 : ℚ) * 20⌋ = 17 := by
    rw [Int.floor_eq_iff]
    constructor <;> norm_num
  have hf5 : ⌊(6755399441055742 / 2 ^ 50 : ℚ)⌋ = 5 := by
    rw [Int.floor_eq_iff]
    constructor <;> norm_num
  have hf6 : ⌊((0.7 : ℚ) - 0.4) * 20⌋ = 6 := by
    rw [Int.floor_eq_iff]
    constructor <;> norm_num
  have hc18 : clickCount (8106479329266892 / 2 ^ 53) initialPage.text = 18 := by
    unfold clickCount
    rw [toDouble_span_0_9_mul_20, hlen]
    norm_num
  have hc5 : clickCount (5404319552844594 / 2 ^ 54) initialPage.text = 5 := by
    unfold clickCount
    rw [toDouble_span_0_3_mul_20, hf5, hlen]
    norm_num
  have hd1 : exportCueDuration ⟨3, by decide⟩ ⟨7, by decide⟩ = 8106479329266892 / 2 ^ 53 := by
    have e1 : endSliderValue ⟨7, by decide⟩ = 1.2 := by norm_num [endSliderValue]
    have e2 : startSliderValue ⟨3, by decide⟩ = 0.3 := by norm_num [startSliderValue]
    rw [exportCueDuration, e1, e2, toDouble_lit_1_2, toDouble_lit_0_3, toDouble_1_2_sub_0_3]
  have hd2 : exportCueDuration ⟨4, by decide⟩ ⟨2, by decide⟩ = 5404319552844594 / 2 ^ 54 := by
    have e1 : endSliderValue ⟨2, by decide⟩ = 0.7 := by norm_num [endSliderValue]
    have e2 : startSliderValue ⟨4, by decide⟩ = 0.4 := by norm_num [startSliderValue]
    rw [exportCueDuration, e1, e2, toDouble_lit_0_7, toDouble_lit_0_4, toDouble_0_7_sub_0_4]
  refine ⟨hstart0, ?_, hd1, by norm_num, ?_, ?_, ?_, hd2, ?_, ?_⟩
  · intro h
    have hmem : (0 : ℚ) ∈ (makeTypewriter 0 0 ['a']).map Click.start := by
      rw [hstart0]
      exact List.mem_singleton.mpr rfl
    obtain ⟨c, hc, hcs⟩ := List.mem_map.mp hmem
    have := h c hc
    rw [hcs] at this
    norm_num at this
  · have := makeTypewriter_length 0 (8106479329266892 / 2 ^ 53) initialPage.text
    rw [hc18] at this
    exact_mod_cast this
  · rw [hf17, hlen]
    norm_num [clamp]
  · rw [hf17, hlen]
    norm_num
  · have := makeTypewriter_length 0 (5404319552844594 / 2 ^ 54) initialPage.text
    rw [hc5] at this
    exact_mod_cast this
  · rw [hf6, hlen]
    norm_num

/-- C8, amended: for a schedule start and a duration `>= 0` that are doubles,
and every text, the number of clicks is
`max(1, min(length(text), floor(duration*20)))` with the double product; click
`i` starts at the double value of `scheduleStart + (i/count)*duration`, the
quotient, the product and the sum each rounded; the starts are non-decreasing,
the first is `scheduleStart`, none is before `scheduleStart` or after the
double sum `scheduleStart + duration`, and for duration 0 all are
`scheduleStart`. For duration 2 and a text of length 100 the count is 40. -/
theorem makeTypewriter_schedule (startAt dur : ℚ) (text : List Char)
    (hs : toDouble startAt = startAt) (hd : toDouble dur = dur) (hdur : 0 ≤ dur) :
    ((makeTypewriter startAt dur text).length : ℤ) =
      max 1 (min (text.length : ℤ) ⌊toDouble (dur * 20)⌋) ∧
    (∀ i : ℕ, i < (makeTypewriter startAt dur text).length →
      ((makeTypewriter startAt dur text)[i]?).map Click.start =
        some (toDouble (startAt + toDouble
          (toDouble ((i : ℚ) / ((makeTypewriter startAt dur text).length : ℚ)) * dur)))) ∧
    ((makeTypewriter startAt dur text).map Click.start).Pairwise (fun a b => a ≤ b) ∧
    ((makeTypewriter startAt dur text)[0]?).map Click.start = some startAt ∧
    (∀ c ∈ makeTypewriter startAt dur text,
      startAt ≤ c.start ∧ c.start ≤ toDouble (startAt + dur)) ∧
    (dur = 0 → ∀ c ∈ makeTypewriter startAt dur text, c.start = startAt) ∧
    (dur = 2 → text.length = 100 → (makeTypewriter startAt dur text).length = 40) := by
  have hpos := clickCount_pos dur text
  have hlen := makeTypewriter_length startAt dur text
  have hc0 : 0 < clickCount dur text := by omega
  have hcq : (0 : ℚ) < (clickCount dur text : ℚ) := by exact_mod_cast hc0
  refine ⟨hlen, ?_, ?_, ?_, ?_, ?_, ?_⟩
  · intro i hi
    exact makeTypewriter_getElem? startAt dur text i hi
  · rw [makeTypewriter_starts, List.pairwise_map]
    refine List.Pairwise.imp ?_ (List.pairwise_lt_range _)
    intro i j hij
    have hq : (i : ℚ) / (clickCount dur text : ℚ) ≤ (j : ℚ) / (clickCount dur text : ℚ) :=
      div_le_div_of_nonneg_right (by exact_mod_cast hij.le) hcq.le
    have h1 := mul_le_mul_of_nonneg_right (toDouble_mono hq) hdur
    have h2 := toDouble_mono h1
    exact toDouble_mono (by linarith)
  · have h0 : 0 < (makeTypewriter startAt dur text).length := by omega
    have := makeTypewriter_getElem? startAt dur text 0 h0
    simpa [toDouble_zero, hs] using this
  · intro c hc
    obtain ⟨i, hi, hcs⟩ := makeTypewriter_mem startAt dur text c hc
    obtain ⟨hb0, hb1⟩ := clickOffset_bounds dur (clickCount dur text) i hd hdur hc0 hi
    rw [hcs]
    constructor
    · have := toDouble_mono (by linarith : startAt ≤ startAt +
        toDouble (toDouble ((i : ℚ) / (clickCount dur text : ℚ)) * dur))
      rwa [hs] at this
    · exact toDouble_mono (by linarith)
  · intro hz c hc
    obtain ⟨i, -, hcs⟩ := makeTypewriter_mem startAt dur text c hc
    rw [hcs, hz]
    simp [toDouble_zero, hs]
  · intro h2 h100
    have : clickCount dur text = 40 := by
      rw [h2]
      unfold clickCount
      rw [toDouble_forty, h100]
      norm_num
    omega

/-- C8, amended, at a concrete input: schedule start 0, duration 2 and a text
of 100 characters give 40 clicks. -/
theorem makeTypewriter_schedule_witness :
    toDouble 0 = 0 ∧ toDouble 2 = 2 ∧ (0 : ℚ) ≤ 2 ∧
    (makeTypewriter 0 2 (List.replicate 100 'a')).length = 40 :=
  ⟨toDouble_zero, toDouble_two, by norm_num,
    (makeTypewriter_schedule 0 2 (List.replicate 100 'a') toDouble_zero toDouble_two
      (by norm_num)).2.2.2.2.2.2 rfl (by simp)⟩

end TextAnimator
